import Mathlib

/-!
Verification of the spaced-repetition scheduler of the italian-trainer
repository, shallowly embedded from `src/database/vocab_db.py` (the most
complete of the scheduler variants, per the spec's consolidation note).

Modelling conventions:
* SQLite `DATETIME` values are modelled as rational timestamps measured in
  days (`timedelta(days = d)` becomes addition of `d`).
* SQLite `REAL` columns are modelled as `ℚ`.
* Nullable columns are `Option`-valued; the Python code's `x if x is not
  None else d` coalescing becomes `Option.getD`.
* SQLite's three-valued logic collapses to `Bool` filters: a `WHERE`
  clause whose value is `NULL` does not select the row, and a division by
  zero (`CAST(times_correct AS FLOAT) / times_seen` with `times_seen = 0`)
  yields `NULL`, never an error; the embedded filters therefore guard the
  division and are total functions.
* `random.sample` and `random.shuffle` are modelled by explicit `sampler`
  and `shuffler` parameters constrained, where the theorems need it, to
  draw a without-replacement sub-draw of the stated size and a permutation
  respectively; `random.sample` raising `ValueError` on a negative sample
  size is modelled in the `Except` monad.
-/

namespace ItalianTrainer

/-- One row of the `word_stats` table (schema in `init_db`):
`word_italian TEXT PRIMARY KEY, times_seen INTEGER DEFAULT 0,
times_correct INTEGER DEFAULT 0, last_seen DATETIME, next_review DATETIME,
easiness_factor REAL DEFAULT 2.5, interval_days REAL DEFAULT 1,
consecutive_correct INTEGER DEFAULT 0, last_selected DATETIME`.
Columns that the code can observe as `NULL` (rows created by
`mark_words_selected`, or rows from the pre-upgrade schema) are `Option`s. -/
structure WordStat where
  word : String
  times_seen : Nat
  times_correct : Nat
  last_seen : Option ℚ
  next_review : Option ℚ
  easiness_factor : Option ℚ
  interval_days : Option ℚ
  consecutive_correct : Option Nat
  last_selected : Option ℚ
deriving DecidableEq

/-- A vocabulary entry as loaded from the spreadsheet: columns
Italian | Greek | Category | Difficulty (`load_vocabulary`). -/
structure Word where
  italian : String
  greek : String
  category : String
  difficulty : Nat
deriving DecidableEq

/-- `ef = ef if ef is not None else 2.5` — NULL coalescing done by
`record_quiz_result` on an existing row. -/
def efOf (s : WordStat) : ℚ := s.easiness_factor.getD (5/2)

/-- `interval = interval if interval is not None else 1`. -/
def intervalOf (s : WordStat) : ℚ := s.interval_days.getD 1

/-- `streak = streak if streak is not None else 0`. -/
def streakOf (s : WordStat) : Nat := s.consecutive_correct.getD 0

/-- The SM-2 update of `record_quiz_result` in
`src/database/vocab_db.py`, acting on the (possibly absent) `word_stats`
row for `word`.  The branch on `stat` mirrors `if result: ... else: ...`;
the `quiz_history` insert is an append-only log with no effect on the
returned row and is omitted. -/
def record_quiz_result (stat : Option WordStat) (word : String)
    (correct : Bool) (now : ℚ) : WordStat :=
  match stat with
  | some s =>
    let ef0 := efOf s
    let interval0 := intervalOf s
    let streak0 := streakOf s
    let streak := if correct then streak0 + 1 else 0
    let quality : ℚ := if correct then 5 else 2
    let ef := max (13/10)
      (ef0 + ((1:ℚ)/10 - (5 - quality) * ((8:ℚ)/100 + (5 - quality) * (2/100))))
    let intervalNext : ℚ :=
      if !correct then 1
      else if streak = 1 then 1
      else if streak = 2 then 6
      else interval0 * ef
    { word := word
      times_seen := s.times_seen + 1
      times_correct := s.times_correct + (if correct then 1 else 0)
      last_seen := some now
      next_review := some (now + intervalNext)
      easiness_factor := some ef
      interval_days := some intervalNext
      consecutive_correct := some streak
      last_selected := s.last_selected }
  | none =>
    let ef : ℚ := 5/2
    let interval : ℚ := if correct then 1 else 1/2
    let streak : Nat := if correct then 1 else 0
    { word := word
      times_seen := 1
      times_correct := if correct then 1 else 0
      last_seen := some now
      next_review := some (now + interval)
      easiness_factor := some ef
      interval_days := some interval
      consecutive_correct := some streak
      last_selected := none }

/-- The per-word effect of `mark_words_selected`: create a zero-activity
row if none exists, else stamp `last_selected`. -/
def mark_word_selected (stat : Option WordStat) (word : String) (now : ℚ) :
    WordStat :=
  match stat with
  | some s => { s with last_selected := some now }
  | none =>
    { word := word
      times_seen := 0
      times_correct := 0
      last_seen := none
      next_review := none
      easiness_factor := none
      interval_days := none
      consecutive_correct := none
      last_selected := some now }

/-- One store event affecting a single word's row: a recorded quiz outcome
(`record_quiz_result`) or a session selection (`mark_words_selected`). -/
inductive DbStep where
  | outcome (correct : Bool) (now : ℚ)
  | select (now : ℚ)
deriving DecidableEq

/-- Apply one event to the word's (possibly absent) row. -/
def applyStep (word : String) (stat : Option WordStat) : DbStep → WordStat
  | .outcome c t => record_quiz_result stat word c t
  | .select t => mark_word_selected stat word t

/-- Run a finite sequence of store events for one word, starting from no
row at all. -/
def runSteps (word : String) (steps : List DbStep) : Option WordStat :=
  steps.foldl (fun st step => some (applyStep word st step)) none

/-- SQL `next_review <= ?` on a nullable column: a `NULL` comparison is
`NULL`, which does not select the row. -/
def dueClause (s : WordStat) (now : ℚ) : Bool :=
  match s.next_review with
  | none => false
  | some t => t ≤ now

/-- SQL `(CAST(times_correct AS FLOAT) / times_seen) < 0.7`: with
`times_seen = 0` the quotient is `NULL` (SQLite division by zero), and the
comparison does not select the row. -/
def ratioLtClause (s : WordStat) : Bool :=
  if s.times_seen = 0 then false
  else (s.times_correct : ℚ) / (s.times_seen : ℚ) < 7/10

/-- SQL `(CAST(times_correct AS FLOAT) / times_seen) >= 0.7`, again `NULL`
(not selected) when `times_seen = 0`. -/
def ratioGeClause (s : WordStat) : Bool :=
  if s.times_seen = 0 then false
  else (7:ℚ)/10 ≤ (s.times_correct : ℚ) / (s.times_seen : ℚ)

/-- SQL `now < next_review` (`next_review > ?`), `NULL` not selected. -/
def notDueClause (s : WordStat) (now : ℚ) : Bool :=
  match s.next_review with
  | none => false
  | some t => now < t

/-- SQL `last_selected IS NULL OR last_selected < ?` (`?` = yesterday). -/
def lastSelClause (s : WordStat) (yesterday : ℚ) : Bool :=
  match s.last_selected with
  | none => true
  | some t => t < yesterday

/-- `WHERE` clause of the weak-word query shared by `get_weak_words` and
`get_words_for_quiz`:
`next_review <= ? OR (CAST(times_correct AS FLOAT) / times_seen) < 0.7`. -/
def weakFilter (now : ℚ) (s : WordStat) : Bool :=
  dueClause s now || ratioLtClause s

/-- `WHERE` clause of the review-word query of `get_words_for_quiz`:
ratio `>= 0.7 AND next_review > now AND (last_selected IS NULL OR
last_selected < yesterday)`. -/
def reviewFilter (now yesterday : ℚ) (s : WordStat) : Bool :=
  ratioGeClause s && notDueClause s now && lastSelClause s yesterday

/-- `WHERE times_seen > 0` of `get_weak_words` in
`src/vocab_enhanced.py`, the explicit zero-seen guard of that variant. -/
def enhancedSeenFilter (s : WordStat) : Bool :=
  0 < s.times_seen

/-- Insert into a `≤`-sorted list (helper for the `ORDER BY` model). -/
def insertLe {α : Type} (le : α → α → Bool) (a : α) : List α → List α
  | [] => [a]
  | b :: l => if le a b then a :: b :: l else b :: insertLe le a l

/-- Insertion sort modelling SQL `ORDER BY` (a stable total reordering by
the given comparator; which permutation SQLite picks on ties is
irrelevant to the claims, which are order-insensitive). -/
def sortLe {α : Type} (le : α → α → Bool) : List α → List α
  | [] => []
  | a :: l => insertLe le a (sortLe le l)

/-- SQL `LIMIT k` with a possibly negative bound: in SQLite a negative
`LIMIT` means no limit. -/
def sqlLimit {α : Type} (k : ℤ) (l : List α) : List α :=
  if k < 0 then l else l.take k.toNat

/-- `ASC` ordering on a nullable column: `NULL`s sort first in SQLite. -/
def optionLe (a b : Option ℚ) : Bool :=
  match a, b with
  | none, _ => true
  | some _, none => false
  | some x, some y => x ≤ y

/-- Comparator of `ORDER BY next_review ASC, ratio ASC` (weak query). -/
def weakOrder (a b : WordStat) : Bool :=
  if a.next_review = b.next_review then
    optionLe (if a.times_seen = 0 then none
              else some ((a.times_correct : ℚ) / (a.times_seen : ℚ)))
             (if b.times_seen = 0 then none
              else some ((b.times_correct : ℚ) / (b.times_seen : ℚ)))
  else optionLe a.next_review b.next_review

/-- Comparator of `ORDER BY last_selected ASC NULLS FIRST` (review query). -/
def reviewOrder (a b : WordStat) : Bool :=
  optionLe a.last_selected b.last_selected

/-- Python `int(...)` on a rational value: truncation toward zero (matches
CPython's `int(n * 0.3)` on every integer `n` in the scheduler's range). -/
def pyInt (q : ℚ) : ℤ :=
  if q < 0 then ⌈q⌉ else ⌊q⌋

/-- `random.sample(l, k)`: raises `ValueError` when the requested size is
negative or exceeds the population; otherwise some size-`k`
without-replacement draw, supplied by the ambient `sampler`. -/
def pySample (sampler : List Word → Nat → List Word) (l : List Word)
    (k : ℤ) : Except String (List Word) :=
  if k < 0 ∨ (l.length : ℤ) < k then
    Except.error "Sample larger than population or is negative"
  else Except.ok (sampler l k.toNat)

/-- `known_words = {row[0] for row in SELECT word_italian FROM word_stats}`
(membership is all that the code uses the set for). -/
def known_words (stats : List WordStat) : List String := stats.map (·.word)

/-- `new_words = [w for w in all_words if w["italian"] not in known_words]`. -/
def new_words (stats : List WordStat) (all_words : List Word) : List Word :=
  all_words.filter (fun w => !((known_words stats).contains w.italian))

/-- `known_word_objs = [w for w in all_words if w["italian"] in known_words]`. -/
def known_word_objs (stats : List WordStat) (all_words : List Word) : List Word :=
  all_words.filter (fun w => (known_words stats).contains w.italian)

/-- `weak_word_names`: the weak query of `get_words_for_quiz`
(`WHERE next_review <= ? OR ratio < 0.7 ORDER BY ... LIMIT n`). -/
def weak_word_names (stats : List WordStat) (n : ℤ) (now : ℚ) : List String :=
  (sqlLimit n (sortLe weakOrder (stats.filter (weakFilter now)))).map (·.word)

/-- `weak_words = [w for w in known_word_objs if w["italian"] in weak_word_names]`. -/
def weak_words (stats : List WordStat) (all_words : List Word) (n : ℤ)
    (now : ℚ) : List Word :=
  (known_word_objs stats all_words).filter
    (fun w => (weak_word_names stats n now).contains w.italian)

/-- `review_word_names`: the review query (`ratio >= 0.7 AND next_review > ?
AND (last_selected IS NULL OR last_selected < yesterday) ORDER BY
last_selected ASC NULLS FIRST LIMIT n`), with `yesterday = now - 1 day`. -/
def review_word_names (stats : List WordStat) (n : ℤ) (now : ℚ) : List String :=
  (sqlLimit n (sortLe reviewOrder (stats.filter (reviewFilter now (now - 1))))).map (·.word)

/-- `review_words = [w for w in known_word_objs if w["italian"] in review_word_names]`. -/
def review_words (stats : List WordStat) (all_words : List Word) (n : ℤ)
    (now : ℚ) : List Word :=
  (known_word_objs stats all_words).filter
    (fun w => (review_word_names stats n now).contains w.italian)

/-- `new_target = max(1, int(n * 0.3))`. -/
def new_target (n : ℤ) : ℤ := max 1 (pyInt ((n : ℚ) * (3/10)))

/-- `weak_target = max(1, int(n * 0.4))`. -/
def weak_target (n : ℤ) : ℤ := max 1 (pyInt ((n : ℚ) * (4/10)))

/-- `review_target = n - new_target - weak_target` — note: NOT clamped. -/
def review_target (n : ℤ) : ℤ := n - new_target n - weak_target n

/-- `get_words_for_quiz(all_words, n)` from `src/database/vocab_db.py`,
parameterised by the store contents `stats`, the clock `now`, and the
random draws (`sampler` for each `random.sample`, `shuffler` for the final
`random.shuffle`).  The Python pattern `random.sample(ws, k) if ws else []`
is an emptiness guard before each draw; a `ValueError` escaping
`random.sample` is the `Except.error` case.  The trailing
`mark_words_selected` write does not affect the returned sequence and is
omitted. -/
def get_words_for_quiz (sampler : List Word → Nat → List Word)
    (shuffler : List Word → List Word) (stats : List WordStat)
    (all_words : List Word) (n : ℤ) (now : ℚ) :
    Except String (List Word) :=
  match (if (new_words stats all_words).isEmpty then Except.ok []
         else pySample sampler (new_words stats all_words)
           (min (new_target n) ((new_words stats all_words).length : ℤ))) with
  | Except.error e => Except.error e
  | Except.ok selected_new =>
  match (if (weak_words stats all_words n now).isEmpty then Except.ok []
         else pySample sampler (weak_words stats all_words n now)
           (min (weak_target n) ((weak_words stats all_words n now).length : ℤ))) with
  | Except.error e => Except.error e
  | Except.ok selected_weak =>
  match (if (review_words stats all_words n now).isEmpty then Except.ok []
         else pySample sampler (review_words stats all_words n now)
           (min (review_target n) ((review_words stats all_words n now).length : ℤ))) with
  | Except.error e => Except.error e
  | Except.ok selected_review =>
  let selected := selected_new ++ selected_weak ++ selected_review
  match (if (selected.length : ℤ) < n then
           let remaining := all_words.filter (fun w => decide (w ∉ selected))
           if remaining.isEmpty then Except.ok selected
           else match pySample sampler remaining
                  (min (n - (selected.length : ℤ)) (remaining.length : ℤ)) with
                | Except.error e => Except.error e
                | Except.ok extra => Except.ok (selected ++ extra)
         else Except.ok selected) with
  | Except.error e => Except.error e
  | Except.ok selectedFilled => Except.ok (shuffler selectedFilled)

/-- `get_weak_words` from `src/database/vocab_db.py`: the weak query with
`ORDER BY next_review ASC, success_rate ASC LIMIT ?`, returning names. -/
def get_weak_words (stats : List WordStat) (limit : ℤ) (now : ℚ) :
    List String :=
  weak_word_names stats limit now

/-- The `"due_for_review"` figure of `get_detailed_stats`:
`SELECT COUNT(*) FROM word_stats WHERE next_review <= ?`. -/
def due_for_review_count (stats : List WordStat) (now : ℚ) : Nat :=
  (stats.filter (fun s => dueClause s now)).length

/-- Modelled from the spec (§4.2, for refinement comparison only): the
size of the Weak bucket, "items with a record where `nextReviewAt <= now`
OR `timesCorrect / timesSeen < 0.7` (requires `timesSeen > 0`)". -/
def weakBucketCountSpec (stats : List WordStat) (now : ℚ) : Nat :=
  (stats.filter (fun s => dueClause s now ||
    (decide (0 < s.times_seen) &&
      decide ((s.times_correct : ℚ) / (s.times_seen : ℚ) < 7/10)))).length

/-- A deterministic instance of `random.sample`'s contract, used to
instantiate witnesses and counterexamples: draw the initial segment. -/
def takeSampler (l : List Word) (k : Nat) : List Word := l.take k

/-- Runs consisting only of recorded quiz outcomes (`record_quiz_result`
calls), the setting of the claims about the SM-2 update. -/
def runOutcomes (word : String) (outs : List (Bool × ℚ)) : Option WordStat :=
  runSteps word (outs.map (fun p => DbStep.outcome p.1 p.2))

/-- Invariant of every row reachable through the store's two writers:
the easiness factor is bounded below by `1.3` and above by
`2.5 + timesSeen / 10`, and the interval follows the stepped SM-2 shape
(`<= 1` with no streak, `1` at streak 1, `6` at streak 2, `>= 6` beyond),
all read through the NULL-coalescing the code itself performs. -/
def GoodStat (s : WordStat) : Prop :=
  13/10 ≤ efOf s ∧ efOf s ≤ 5/2 + (s.times_seen : ℚ)/10 ∧
  0 < intervalOf s ∧
  (streakOf s = 0 → intervalOf s ≤ 1) ∧
  (streakOf s = 1 → intervalOf s = 1) ∧
  (streakOf s = 2 → intervalOf s = 6) ∧
  (3 ≤ streakOf s → 6 ≤ intervalOf s)

/-! Concrete instances used by witnesses and counterexamples. -/

/-- The spec's §8 scenario record for "casa":
`timesSeen=3, timesCorrect=3, EF=2.5, intervalDays=6, consecutiveCorrect=2`. -/
def casa0 : WordStat :=
  { word := "casa", times_seen := 3, times_correct := 3, last_seen := some 0,
    next_review := some 6, easiness_factor := some (5/2),
    interval_days := some 6, consecutive_correct := some 2,
    last_selected := none }

/-- A record with a poor success ratio (1 of 5) whose next review is far in
the future — Weak by the ratio clause only. -/
def caneLowRatio : WordStat :=
  { word := "cane", times_seen := 5, times_correct := 1, last_seen := some 0,
    next_review := some 100, easiness_factor := some (5/2),
    interval_days := some 100, consecutive_correct := some 0,
    last_selected := none }

/-- A record that is due (`next_review` in the past) and also has a poor
ratio: a member of the weak bucket of `get_words_for_quiz`. -/
def caneDue : WordStat :=
  { word := "cane", times_seen := 5, times_correct := 1, last_seen := some 0,
    next_review := some (-1), easiness_factor := none,
    interval_days := none, consecutive_correct := none,
    last_selected := none }

/-- A mastered record (ratio `5/5`), not due, never selected: a member of
the review bucket of `get_words_for_quiz`. -/
def caneMastered : WordStat :=
  { word := "cane", times_seen := 5, times_correct := 5, last_seen := some 0,
    next_review := some 100, easiness_factor := some (5/2),
    interval_days := some 100, consecutive_correct := some 5,
    last_selected := none }

/-- A zero-activity record as created by `mark_words_selected`
(`times_seen = 0`, everything else NULL except `last_selected`). -/
def zeroSeen : WordStat :=
  { word := "vino", times_seen := 0, times_correct := 0, last_seen := none,
    next_review := none, easiness_factor := none,
    interval_days := none, consecutive_correct := none,
    last_selected := some 0 }

/-- Vocabulary entry "casa". -/
def casaW : Word :=
  { italian := "casa", greek := "spiti", category := "other", difficulty := 2 }

/-- Vocabulary entry "cane". -/
def caneW : Word :=
  { italian := "cane", greek := "skilos", category := "other", difficulty := 2 }

lemma ef_record_none (w : String) (c : Bool) (t : ℚ) :
    (record_quiz_result none w c t).easiness_factor = some (5/2) := by
  cases c <;> simp [record_quiz_result]

lemma interval_record_none (w : String) (c : Bool) (t : ℚ) :
    (record_quiz_result none w c t).interval_days
      = some (if c then 1 else 1/2) := by
  cases c <;> simp [record_quiz_result]

lemma streak_record_none (w : String) (c : Bool) (t : ℚ) :
    (record_quiz_result none w c t).consecutive_correct
      = some (if c then 1 else 0) := by
  cases c <;> simp [record_quiz_result]

lemma seen_record_none (w : String) (c : Bool) (t : ℚ) :
    (record_quiz_result none w c t).times_seen = 1 := by
  cases c <;> simp [record_quiz_result]

lemma ef_record_some (s : WordStat) (w : String) (c : Bool) (t : ℚ) :
    (record_quiz_result (some s) w c t).easiness_factor
      = some (max (13/10) (efOf s + (if c then 1/10 else -(32/100)))) := by
  cases c <;> simp [record_quiz_result] <;> norm_num

lemma streak_record_some (s : WordStat) (w : String) (c : Bool) (t : ℚ) :
    (record_quiz_result (some s) w c t).consecutive_correct
      = some (if c then streakOf s + 1 else 0) := by
  cases c <;> simp [record_quiz_result]

lemma seen_record_some (s : WordStat) (w : String) (c : Bool) (t : ℚ) :
    (record_quiz_result (some s) w c t).times_seen = s.times_seen + 1 := by
  cases c <;> simp [record_quiz_result]

lemma interval_record_some_wrong (s : WordStat) (w : String) (t : ℚ) :
    (record_quiz_result (some s) w false t).interval_days = some 1 := by
  simp [record_quiz_result]

lemma interval_record_some_correct (s : WordStat) (w : String) (t : ℚ) :
    (record_quiz_result (some s) w true t).interval_days
      = some (if streakOf s = 0 then 1 else if streakOf s = 1 then 6
              else intervalOf s * max (13/10) (efOf s + 1/10)) := by
  simp only [record_quiz_result, Bool.not_true, Bool.false_eq_true, if_false,
    if_true]
  norm_num
  rcases Nat.eq_zero_or_pos (streakOf s) with h0 | hpos
  · simp [h0]
  · have h1 : ¬ (streakOf s + 1 = 1) := by omega
    rcases Nat.lt_or_ge (streakOf s) 2 with h1' | h2
    · have : streakOf s = 1 := by omega
      simp [this]
    · have ha : ¬ (streakOf s + 1 = 2) := by omega
      have hb : ¬ (streakOf s = 0) := by omega
      have hc : ¬ (streakOf s = 1) := by omega
      simp [h1, ha, hb, hc]

lemma next_eq_now_add_interval (st : Option WordStat) (w : String) (c : Bool)
    (t : ℚ) :
    (record_quiz_result st w c t).next_review
      = some (t + intervalOf (record_quiz_result st w c t)) := by
  cases st <;> cases c <;> simp [record_quiz_result, intervalOf]

lemma goodStat_record (st : Option WordStat) (w : String) (c : Bool) (t : ℚ)
    (h : ∀ s, st = some s → GoodStat s) :
    GoodStat (record_quiz_result st w c t) := by
  have hef := ef_record_some
  cases st with
  | none =>
    unfold GoodStat efOf intervalOf streakOf
    rw [ef_record_none, interval_record_none, streak_record_none,
      seen_record_none]
    cases c <;> simp <;> norm_num
  | some s =>
    obtain ⟨hef1, hef2, hint0, h0, h1, h2, h3⟩ := h s rfl
    unfold GoodStat efOf intervalOf streakOf
    rw [ef_record_some, streak_record_some, seen_record_some]
    simp only [Option.getD_some]
    cases c with
    | false =>
      rw [interval_record_some_wrong]
      simp only [if_false, Bool.false_eq_true, Option.getD_some]
      push_cast
      constructor
      · exact le_max_left _ _
      refine ⟨?_, by norm_num, by simp, by simp, by simp, by simp⟩
      rcases max_cases (13/10 : ℚ) (efOf s + -(32/100)) with ⟨hm, _⟩ | ⟨hm, _⟩ <;>
        rw [hm] <;> linarith
    | true =>
      rw [interval_record_some_correct]
      simp only [if_true, Option.getD_some]
      have hmax : max (13/10 : ℚ) (efOf s + 1/10) = efOf s + 1/10 :=
        max_eq_right (by linarith)
      rw [hmax]
      push_cast
      refine ⟨by linarith, by linarith, ?_, by simp, ?_, ?_, ?_⟩
      · rcases Nat.eq_zero_or_pos (streakOf s) with hs0 | hsp
        · simp [hs0]
        rcases Nat.lt_or_ge (streakOf s) 2 with hs1 | hs2
        · have : streakOf s = 1 := by omega
          simp [this]
        · have ha : ¬ (streakOf s = 0) := by omega
          have hb : ¬ (streakOf s = 1) := by omega
          have hi6 : 6 ≤ intervalOf s := by
            rcases Nat.lt_or_ge (streakOf s) 3 with hs2' | hs3
            · rw [h2 (by omega)]
            · exact h3 hs3
          simp only [ha, hb, if_false]
          nlinarith
      · intro hs
        have : streakOf s = 0 := by omega
        simp [this]
      · intro hs
        have ha : streakOf s = 1 := by omega
        have hb : ¬ (streakOf s = 0) := by omega
        simp [ha, hb]
      · intro hs
        have ha : ¬ (streakOf s = 0) := by omega
        have hb : ¬ (streakOf s = 1) := by omega
        have hi6 : 6 ≤ intervalOf s := by
          rcases Nat.lt_or_ge (streakOf s) 3 with hs2' | hs3
          · rw [h2 (by omega)]
          · exact h3 hs3
        simp only [ha, hb, if_false]
        nlinarith

lemma goodStat_mark (st : Option WordStat) (w : String) (t : ℚ)
    (h : ∀ s, st = some s → GoodStat s) :
    GoodStat (mark_word_selected st w t) := by
  cases st with
  | none =>
    unfold GoodStat efOf intervalOf streakOf mark_word_selected
    norm_num
  | some s =>
    obtain ⟨hef1, hef2, hint0, h0, h1, h2, h3⟩ := h s rfl
    exact ⟨hef1, hef2, hint0, h0, h1, h2, h3⟩

lemma goodStat_applyStep (st : Option WordStat) (w : String) (step : DbStep)
    (h : ∀ s, st = some s → GoodStat s) :
    GoodStat (applyStep w st step) := by
  cases step with
  | outcome c t => exact goodStat_record st w c t h
  | select t => exact goodStat_mark st w t h

lemma goodStat_foldl (w : String) (steps : List DbStep) (st : Option WordStat)
    (h : ∀ s, st = some s → GoodStat s) :
    ∀ s, steps.foldl (fun st step => some (applyStep w st step)) st = some s →
      GoodStat s := by
  induction steps generalizing st with
  | nil => intro s hs; exact h s hs
  | cons step rest ih =>
    intro s hs
    refine ih (some (applyStep w st step)) ?_ s hs
    intro s' hs'
    obtain rfl : applyStep w st step = s' := by injection hs'
    exact goodStat_applyStep st w step h

/-- Every row reachable from an absent record through any sequence of
store events satisfies the `GoodStat` invariant. -/
lemma goodStat_runSteps (w : String) (steps : List DbStep) (s : WordStat)
    (h : runSteps w steps = some s) : GoodStat s :=
  goodStat_foldl w steps none (by intro s' hs'; cases hs') s h

lemma goodStat_runOutcomes (w : String) (outs : List (Bool × ℚ)) (s : WordStat)
    (h : runOutcomes w outs = some s) : GoodStat s :=
  goodStat_runSteps w _ s h

lemma ef_stored_record (st : Option WordStat) (w : String) (c : Bool) (t : ℚ) :
    ∃ e, (record_quiz_result st w c t).easiness_factor = some e ∧
      13/10 ≤ e := by
  cases st with
  | none => exact ⟨5/2, ef_record_none w c t, by norm_num⟩
  | some s => exact ⟨_, ef_record_some s w c t, le_max_left _ _⟩

lemma ef_stored_foldl (w : String) (outs : List (Bool × ℚ))
    (st : Option WordStat)
    (h : ∀ s, st = some s → ∃ e, s.easiness_factor = some e ∧ 13/10 ≤ e) :
    ∀ s, (outs.map (fun p => DbStep.outcome p.1 p.2)).foldl
        (fun st step => some (applyStep w st step)) st = some s →
      ∃ e, s.easiness_factor = some e ∧ 13/10 ≤ e := by
  induction outs generalizing st with
  | nil => exact h
  | cons p rest ih =>
    intro s hs
    refine ih (some (applyStep w st (DbStep.outcome p.1 p.2))) ?_ s hs
    intro s' hs'
    obtain rfl : applyStep w st (DbStep.outcome p.1 p.2) = s' := by injection hs'
    exact ef_stored_record st w p.1 p.2

/-- C6: after any finite sequence of recorded outcomes starting from no
record, the stored easiness factor exists and is at least 1.3 (every
creation stores 2.5 and every update clamps below at 1.3). -/
theorem c6_ef_never_below_floor (w : String) (outs : List (Bool × ℚ))
    (s : WordStat) (h : runOutcomes w outs = some s) :
    ∃ e, s.easiness_factor = some e ∧ 13/10 ≤ e := by
  refine ef_stored_foldl w outs none ?_ s h
  intro s' hs'
  cases hs'

/-- Witness for C6 at the one-outcome run. -/
theorem c6_ef_never_below_floor_witness :
    ∃ e, (record_quiz_result none "casa" true 0).easiness_factor = some e ∧
      13/10 ≤ e :=
  c6_ef_never_below_floor "casa" [(true, 0)]
    (record_quiz_result none "casa" true 0) rfl

/-- C7 counterexample: two correct outcomes push the stored easiness
factor to 2.6, above the claimed 2.5 ceiling. -/
theorem c7_ef_exceeds_ceiling :
    ∃ s, runOutcomes "casa" [(true, 0), (true, 0)] = some s ∧
      s.easiness_factor = some (13/5) ∧ ¬ ((13:ℚ)/5 ≤ 5/2) := by
  refine ⟨record_quiz_result
    (some (record_quiz_result none "casa" true 0)) "casa" true 0, rfl, ?_, by norm_num⟩
  rw [ef_record_some]
  norm_num [record_quiz_result, efOf, max_def]

/-- C7 amended: after any sequence of store events the easiness factor
read back by the code satisfies `1.3 ≤ EF`, but the upper end is not
clamped at 2.5: it is only bounded by `2.5 + timesSeen / 10` (each
outcome adds at most 0.1). -/
theorem c7_ef_bounds (w : String) (steps : List DbStep) (s : WordStat)
    (h : runSteps w steps = some s) :
    13/10 ≤ efOf s ∧ efOf s ≤ 5/2 + (s.times_seen : ℚ)/10 :=
  ⟨(goodStat_runSteps w steps s h).1, (goodStat_runSteps w steps s h).2.1⟩

/-- Witness for C7 amended at the one-outcome run. -/
theorem c7_ef_bounds_witness :
    13/10 ≤ efOf (record_quiz_result none "casa" true 0) ∧
      efOf (record_quiz_result none "casa" true 0)
        ≤ 5/2 + ((record_quiz_result none "casa" true 0).times_seen : ℚ)/10 :=
  c7_ef_bounds "casa" [DbStep.outcome true 0]
    (record_quiz_result none "casa" true 0) rfl

/-- C8: from any reachable record state, a further correct outcome never
shrinks the stored interval: the stepped schedule gives 1 day at streak 1,
6 days at streak 2, and multiplies by the updated EF (≥ 1.3) afterwards. -/
theorem c8_interval_nondecreasing_on_correct (w : String)
    (steps : List DbStep) (s : WordStat) (t : ℚ)
    (h : runSteps w steps = some s) :
    intervalOf s ≤ intervalOf (record_quiz_result (some s) w true t) := by
  obtain ⟨hef1, _, hint0, h0, h1, h2, h3⟩ := goodStat_runSteps w steps s h
  unfold intervalOf
  rw [interval_record_some_correct]
  simp only [Option.getD_some]
  rcases Nat.eq_zero_or_pos (streakOf s) with hs0 | hsp
  · simpa [hs0] using h0 hs0
  rcases Nat.lt_or_ge (streakOf s) 2 with hs1 | hs2
  · have hx : streakOf s = 1 := by omega
    have : intervalOf s = 1 := h1 hx
    unfold intervalOf at this
    simp [hx, this]
  · have ha : ¬ (streakOf s = 0) := by omega
    have hb : ¬ (streakOf s = 1) := by omega
    have hmax : max (13/10 : ℚ) (efOf s + 1/10) = efOf s + 1/10 :=
      max_eq_right (by linarith)
    simp only [ha, hb, if_false, hmax]
    have : intervalOf s * 1 ≤ intervalOf s * (efOf s + 1/10) := by
      have h1' : (1:ℚ) ≤ efOf s + 1/10 := by linarith
      exact mul_le_mul_of_nonneg_left h1' (le_of_lt hint0)
    simpa [intervalOf] using this

/-- Witness for C8: interval 1 grows to 6 at the second correct answer. -/
theorem c8_interval_nondecreasing_on_correct_witness :
    intervalOf (record_quiz_result none "casa" true 0)
      ≤ intervalOf (record_quiz_result
          (some (record_quiz_result none "casa" true 0)) "casa" true 1) :=
  c8_interval_nondecreasing_on_correct "casa" [DbStep.outcome true 0]
    (record_quiz_result none "casa" true 0) 1 rfl

lemma ef_replicate_correct (w : String) (t : ℚ) :
    ∀ (k : ℕ) (s0 : WordStat) (e : ℚ),
      s0.easiness_factor = some e → 13/10 ≤ e →
      ∃ s, (List.replicate k (DbStep.outcome true t)).foldl
          (fun st step => some (applyStep w st step)) (some s0) = some s ∧
        s.easiness_factor = some (e + (k : ℚ)/10) := by
  intro k
  induction k with
  | zero =>
    intro s0 e he _
    exact ⟨s0, rfl, by rw [he]; norm_num⟩
  | succ k ih =>
    intro s0 e he hle
    rw [List.replicate_succ, List.foldl_cons]
    have hef : (record_quiz_result (some s0) w true t).easiness_factor
        = some (e + 1/10) := by
      rw [ef_record_some]
      have : efOf s0 = e := by simp [efOf, he]
      rw [if_pos rfl, this, max_eq_right (by linarith)]
    obtain ⟨s, hs, he'⟩ :=
      ih (record_quiz_result (some s0) w true t) (e + 1/10) hef (by linarith)
    refine ⟨s, hs, ?_⟩
    rw [he']
    congr 1
    push_cast
    ring

/-- C10: the first outcome for an unseen item stores EF exactly 2.5
(correct or not — the EF-update formula is skipped on creation), and `k`
consecutive correct outcomes from scratch leave EF at
`2.5 + 0.1 * (k - 1)`, not `2.5 + 0.1 * k`. -/
theorem c10_first_outcome_ef (w : String) (c : Bool) (t : ℚ) (k : ℕ)
    (hk : 1 ≤ k) :
    (record_quiz_result none w c t).easiness_factor = some (5/2) ∧
    ∃ s, runOutcomes w (List.replicate k (true, t)) = some s ∧
      s.easiness_factor = some (5/2 + ((k : ℚ) - 1)/10) := by
  refine ⟨ef_record_none w c t, ?_⟩
  obtain ⟨k', rfl⟩ : ∃ k', k = k' + 1 := ⟨k - 1, by omega⟩
  unfold runOutcomes runSteps
  rw [List.map_replicate, List.replicate_succ, List.foldl_cons]
  have h1 : (record_quiz_result none w true t).easiness_factor = some (5/2) :=
    ef_record_none w true t
  obtain ⟨s, hs, he⟩ :=
    ef_replicate_correct w t k' (record_quiz_result none w true t) (5/2) h1
      (by norm_num)
  refine ⟨s, hs, ?_⟩
  rw [he]
  congr 1
  push_cast
  ring

/-- Witness for C10 at `k = 3`: EF is 2.7 after three straight correct
answers on a fresh item. -/
theorem c10_first_outcome_ef_witness :
    (record_quiz_result none "casa" false 0).easiness_factor = some (5/2) ∧
    ∃ s, runOutcomes "casa" (List.replicate 3 (true, 0)) = some s ∧
      s.easiness_factor = some (5/2 + ((3 : ℚ) - 1)/10) :=
  c10_first_outcome_ef "casa" false 0 3 (by norm_num)

lemma tc_record_some (s : WordStat) (w : String) (c : Bool) (t : ℚ) :
    (record_quiz_result (some s) w c t).times_correct
      = s.times_correct + (if c then 1 else 0) := by
  cases c <;> simp [record_quiz_result]

/-- C1 counterexample: on the spec's "casa" scenario the code multiplies
the old interval 6 by the ALREADY-UPDATED easiness factor 2.6, storing
15.6 — not the claimed `6 * 2.5 = 15`. -/
theorem c1_interval_uses_updated_ef :
    (record_quiz_result (some casa0) "casa" true 0).interval_days
      = some (78/5) ∧ ((78:ℚ)/5) ≠ 15 := by
  constructor
  · rw [interval_record_some_correct]
    norm_num [casa0, streakOf, efOf, intervalOf, max_def]
  · norm_num

/-- C1 amended: recording a correct outcome on a record with
`timesSeen=3, timesCorrect=3, EF=2.5, intervalDays=6,
consecutiveCorrect=2` yields `consecutiveCorrect=3`, `EF = 2.6`, and
`intervalDays = 6 * 2.6 = 15.6` with `nextReviewAt = now + 15.6 days`
(the EF update happens before the interval multiplication). -/
theorem c1_casa_scenario (s : WordStat) (w : String) (now : ℚ)
    (h1 : s.times_seen = 3) (h2 : s.times_correct = 3)
    (h3 : s.easiness_factor = some (5/2)) (h4 : s.interval_days = some 6)
    (h5 : s.consecutive_correct = some 2) :
    (record_quiz_result (some s) w true now).consecutive_correct = some 3 ∧
    (record_quiz_result (some s) w true now).easiness_factor = some (13/5) ∧
    (record_quiz_result (some s) w true now).interval_days = some (78/5) ∧
    (record_quiz_result (some s) w true now).next_review
      = some (now + 78/5) ∧
    (record_quiz_result (some s) w true now).times_seen = 4 ∧
    (record_quiz_result (some s) w true now).times_correct = 4 := by
  have hstreak : streakOf s = 2 := by simp [streakOf, h5]
  have hef : efOf s = 5/2 := by simp [efOf, h3]
  have hint : intervalOf s = 6 := by simp [intervalOf, h4]
  have hi : (record_quiz_result (some s) w true now).interval_days
      = some (78/5) := by
    rw [interval_record_some_correct]
    norm_num [hstreak, hef, hint, max_def]
  refine ⟨?_, ?_, hi, ?_, ?_, ?_⟩
  · rw [streak_record_some]; simp [hstreak]
  · rw [ef_record_some]; norm_num [hef, max_def]
  · rw [next_eq_now_add_interval]
    unfold intervalOf
    rw [hi]
    simp
  · rw [seen_record_some, h1]
  · rw [tc_record_some, h2]
    simp

/-- Witness for C1 amended at the concrete `casa0` record. -/
theorem c1_casa_scenario_witness :
    (record_quiz_result (some casa0) "casa" true 0).consecutive_correct
      = some 3 ∧
    (record_quiz_result (some casa0) "casa" true 0).easiness_factor
      = some (13/5) ∧
    (record_quiz_result (some casa0) "casa" true 0).interval_days
      = some (78/5) ∧
    (record_quiz_result (some casa0) "casa" true 0).next_review
      = some (0 + 78/5) ∧
    (record_quiz_result (some casa0) "casa" true 0).times_seen = 4 ∧
    (record_quiz_result (some casa0) "casa" true 0).times_correct = 4 :=
  c1_casa_scenario casa0 "casa" 0 rfl rfl rfl rfl rfl

/-- C2 counterexample: an incorrect outcome on an item with NO existing
record stores `intervalDays = 0.5` (and `nextReviewAt = now + 0.5 days`),
not the claimed 1 day. -/
theorem c2_fresh_wrong_half_day :
    (record_quiz_result none "cane" false 0).interval_days = some (1/2) ∧
    (record_quiz_result none "cane" false 0).next_review = some (1/2) ∧
    ((1:ℚ)/2) ≠ 1 := by
  refine ⟨?_, ?_, by norm_num⟩
  · rw [interval_record_none]; norm_num
  · rw [next_eq_now_add_interval]
    unfold intervalOf
    rw [interval_record_none]
    norm_num

/-- C2 amended: an incorrect outcome always resets `consecutiveCorrect`
to 0; it resets `intervalDays` to 1 (`nextReviewAt = now + 1 day`) when a
record already exists, but on the very first outcome for an item the
created record gets `intervalDays = 0.5` and `nextReviewAt = now + 0.5
days` instead. -/
theorem c2_wrong_resets (s : WordStat) (w : String) (now : ℚ) :
    (record_quiz_result (some s) w false now).interval_days = some 1 ∧
    (record_quiz_result (some s) w false now).next_review = some (now + 1) ∧
    (record_quiz_result (some s) w false now).consecutive_correct = some 0 ∧
    (record_quiz_result none w false now).interval_days = some (1/2) ∧
    (record_quiz_result none w false now).next_review = some (now + 1/2) ∧
    (record_quiz_result none w false now).consecutive_correct = some 0 := by
  refine ⟨interval_record_some_wrong s w now, ?_, ?_, ?_, ?_, ?_⟩
  · rw [next_eq_now_add_interval]
    unfold intervalOf
    rw [interval_record_some_wrong]
    simp
  · rw [streak_record_some]; simp
  · rw [interval_record_none]; norm_num
  · rw [next_eq_now_add_interval]
    unfold intervalOf
    rw [interval_record_none]
    norm_num
  · rw [streak_record_none]; simp

lemma length_filter_mono {α : Type} (p q : α → Bool) (l : List α)
    (h : ∀ a ∈ l, p a = true → q a = true) :
    (l.filter p).length ≤ (l.filter q).length := by
  induction l with
  | nil => simp
  | cons a l ih =>
    have ih' := ih (fun b hb => h b (List.mem_cons_of_mem a hb))
    by_cases hp : p a = true
    · rw [List.filter_cons_of_pos hp, List.filter_cons_of_pos (h a (by simp) hp)]
      simpa using ih'
    · rw [List.filter_cons_of_neg hp]
      by_cases hq : q a = true
      · rw [List.filter_cons_of_pos hq]
        simp only [List.length_cons]
        omega
      · rw [List.filter_cons_of_neg hq]
        exact ih'

/-- C5 counterexample: a record that is Weak by the low-ratio clause alone
(ratio 0.2, next review in the future) is not counted by
`get_detailed_stats`' due count, which tests `next_review <= now` only. -/
theorem c5_due_count_misses_low_ratio :
    due_for_review_count [caneLowRatio] 0 = 0 ∧
    weakBucketCountSpec [caneLowRatio] 0 = 1 ∧ (0 : ℕ) ≠ 1 := by
  refine ⟨?_, ?_, by norm_num⟩
  · norm_num [due_for_review_count, dueClause, caneLowRatio]
  · norm_num [weakBucketCountSpec, dueClause, caneLowRatio]

/-- C5 amended: the reported due count equals the number of tracked items
with `nextReviewAt <= now`; the low-success-ratio clause of the Weak
bucket is NOT included, so the figure is a lower bound on (and can be
strictly smaller than) the Weak bucket size. -/
theorem c5_due_count_lower_bound (stats : List WordStat) (now : ℚ) :
    due_for_review_count stats now ≤ weakBucketCountSpec stats now := by
  unfold due_for_review_count weakBucketCountSpec
  refine length_filter_mono _ _ stats ?_
  intro s _ hp
  rw [Bool.or_eq_true]
  exact Or.inl hp

/-- C9: every success-ratio filter treats `timesSeen = 0` records as
unselected — the embedded clauses are total functions (SQLite returns
`NULL`, not an error, on the division by zero) and a zero-seen record is
excluded from both ratio-based filters, so weak-classification reduces to
the due test, the review query rejects the record, and the
`src/vocab_enhanced.py` weak report's explicit `times_seen > 0` guard
rejects it too. -/
theorem c9_zero_seen_guard (s : WordStat) (now yesterday : ℚ)
    (h : s.times_seen = 0) :
    ratioLtClause s = false ∧ ratioGeClause s = false ∧
    weakFilter now s = dueClause s now ∧
    reviewFilter now yesterday s = false ∧
    enhancedSeenFilter s = false := by
  have hlt : ratioLtClause s = false := by simp [ratioLtClause, h]
  have hge : ratioGeClause s = false := by simp [ratioGeClause, h]
  refine ⟨hlt, hge, ?_, ?_, ?_⟩
  · simp [weakFilter, hlt]
  · simp [reviewFilter, hge]
  · simp [enhancedSeenFilter, h]

/-- Witness for C9 at the zero-activity record `mark_words_selected`
creates. -/
theorem c9_zero_seen_guard_witness :
    ratioLtClause zeroSeen = false ∧ ratioGeClause zeroSeen = false ∧
    weakFilter 0 zeroSeen = dueClause zeroSeen 0 ∧
    reviewFilter 0 (-1) zeroSeen = false ∧
    enhancedSeenFilter zeroSeen = false :=
  c9_zero_seen_guard zeroSeen 0 (-1) rfl

/-- C4: `get_words_for_quiz` does NOT return an empty sequence for
`n <= 0` and does NOT clamp the negative review target.  With `n = 0` and
one unseen word it still returns that word (`new_target = max(1,0) = 1`);
with `n = 1` and a nonempty review bucket it calls
`random.sample(review_words, -1)`, which raises `ValueError`. -/
theorem c4_small_n_misbehaves :
    get_words_for_quiz takeSampler id [] [casaW] 0 0 = Except.ok [casaW] ∧
    get_words_for_quiz takeSampler id [caneMastered] [caneW] 1 0
      = Except.error "Sample larger than population or is negative" := by
  constructor
  · norm_num [get_words_for_quiz, new_words, known_words, known_word_objs,
      weak_words, weak_word_names, review_words, review_word_names,
      new_target, weak_target, review_target, pySample, pyInt, takeSampler,
      sqlLimit, sortLe, insertLe, weakFilter, dueClause, ratioLtClause,
      reviewFilter, ratioGeClause, notDueClause, lastSelClause, casaW]
  · norm_num [get_words_for_quiz, new_words, known_words, known_word_objs,
      weak_words, weak_word_names, review_words, review_word_names,
      new_target, weak_target, review_target, pySample, pyInt, takeSampler,
      sqlLimit, sortLe, insertLe, weakFilter, dueClause, ratioLtClause,
      reviewFilter, ratioGeClause, notDueClause, lastSelClause, caneW,
      caneMastered]

/-- C3 counterexample: with `n = 1`, one new word and one weak word, the
targets are `max(1, int(0.3)) = 1` and `max(1, int(0.4)) = 1`, so the
session contains 2 distinct words — more than `min(n, |vocab|) = 1`. -/
theorem c3_small_n_overshoots :
    get_words_for_quiz takeSampler id [caneDue] [casaW, caneW] 1 0
      = Except.ok [casaW, caneW] ∧
    ¬ ((([casaW, caneW] : List Word).length : ℤ)
        ≤ min 1 (([casaW, caneW] : List Word).length : ℤ)) := by
  constructor
  · norm_num [get_words_for_quiz, new_words, known_words, known_word_objs,
      weak_words, weak_word_names, review_words, review_word_names,
      new_target, weak_target, review_target, pySample, pyInt, takeSampler,
      sqlLimit, sortLe, insertLe, weakFilter, dueClause, ratioLtClause,
      reviewFilter, ratioGeClause, notDueClause, lastSelClause, casaW, caneW,
      caneDue, show ("casa":String) ≠ "cane" from by decide,
      show ("cane":String) ≠ "casa" from by decide]
  · norm_num

lemma mem_insertLe {α : Type} (le : α → α → Bool) (a x : α) (l : List α) :
    x ∈ insertLe le a l ↔ x = a ∨ x ∈ l := by
  induction l with
  | nil => simp [insertLe]
  | cons b l ih =>
    simp only [insertLe]
    split
    · simp
    · simp only [List.mem_cons, ih]
      tauto

lemma mem_sortLe {α : Type} (le : α → α → Bool) (x : α) (l : List α) :
    x ∈ sortLe le l ↔ x ∈ l := by
  induction l with
  | nil => simp [sortLe]
  | cons a l ih => simp [sortLe, mem_insertLe, ih]

lemma sqlLimit_subset {α : Type} (k : ℤ) (l : List α) :
    ∀ x ∈ sqlLimit k l, x ∈ l := by
  intro x hx
  unfold sqlLimit at hx
  split at hx
  · exact hx
  · exact List.mem_of_mem_take hx

lemma mem_weak_word_names (stats : List WordStat) (n : ℤ) (now : ℚ)
    (x : String) (hx : x ∈ weak_word_names stats n now) :
    ∃ r, r ∈ stats ∧ weakFilter now r = true ∧ r.word = x := by
  unfold weak_word_names at hx
  obtain ⟨r, hr, rfl⟩ := List.mem_map.1 hx
  have := sqlLimit_subset _ _ _ hr
  rw [mem_sortLe] at this
  obtain ⟨hmem, hfil⟩ := List.mem_filter.1 this
  exact ⟨r, hmem, hfil, rfl⟩

lemma mem_review_word_names (stats : List WordStat) (n : ℤ) (now : ℚ)
    (x : String) (hx : x ∈ review_word_names stats n now) :
    ∃ r, r ∈ stats ∧ reviewFilter now (now - 1) r = true ∧ r.word = x := by
  unfold review_word_names at hx
  obtain ⟨r, hr, rfl⟩ := List.mem_map.1 hx
  have := sqlLimit_subset _ _ _ hr
  rw [mem_sortLe] at this
  obtain ⟨hmem, hfil⟩ := List.mem_filter.1 this
  exact ⟨r, hmem, hfil, rfl⟩

lemma weak_review_mutex (now yesterday : ℚ) (r : WordStat)
    (hw : weakFilter now r = true) (hr : reviewFilter now yesterday r = true) :
    False := by
  rw [reviewFilter, Bool.and_eq_true, Bool.and_eq_true] at hr
  obtain ⟨⟨hge, hnd⟩, _⟩ := hr
  rw [weakFilter, Bool.or_eq_true] at hw
  rcases hw with hdue | hlt
  · unfold dueClause at hdue
    unfold notDueClause at hnd
    cases hnr : r.next_review with
    | none => rw [hnr] at hdue; cases hdue
    | some t =>
      rw [hnr] at hdue hnd
      have h1 : t ≤ now := by simpa using hdue
      have h2 : now < t := by simpa using hnd
      linarith
  · unfold ratioLtClause at hlt
    unfold ratioGeClause at hge
    by_cases h0 : r.times_seen = 0
    · rw [if_pos h0] at hlt; cases hlt
    · rw [if_neg h0] at hlt hge
      have h1 : (r.times_correct : ℚ) / (r.times_seen : ℚ) < 7/10 := by
        simpa using hlt
      have h2 : (7:ℚ)/10 ≤ (r.times_correct : ℚ) / (r.times_seen : ℚ) := by
        simpa using hge
      linarith

lemma pySample_ok (sampler : List Word → Nat → List Word)
    (Hs : ∀ (l : List Word) (k : Nat), k ≤ l.length →
      (sampler l k).length = k ∧ (sampler l k).Sublist l)
    (l : List Word) (target : ℤ) (ht : 0 ≤ target) :
    ∃ out, pySample sampler l (min target (l.length : ℤ)) = Except.ok out ∧
      out.Sublist l ∧ (out.length : ℤ) = min target (l.length : ℤ) := by
  set k : ℤ := min target (l.length : ℤ) with hk
  have hk0 : 0 ≤ k := le_min ht (by positivity)
  have hkl : k ≤ (l.length : ℤ) := min_le_right _ _
  have hnat : k.toNat ≤ l.length := by omega
  obtain ⟨hlen, hsub⟩ := Hs l k.toNat hnat
  refine ⟨sampler l k.toNat, ?_, hsub, ?_⟩
  · unfold pySample
    rw [if_neg]
    push_neg
    exact ⟨hk0, hkl⟩
  · rw [hlen]; omega

lemma draw_ok (sampler : List Word → Nat → List Word)
    (Hs : ∀ (l : List Word) (k : Nat), k ≤ l.length →
      (sampler l k).length = k ∧ (sampler l k).Sublist l)
    (l : List Word) (target : ℤ) (ht : 0 ≤ target) :
    ∃ out, (if l.isEmpty then Except.ok []
        else pySample sampler l (min target (l.length : ℤ))) = Except.ok out ∧
      out.Sublist l ∧ (out.length : ℤ) = min target (l.length : ℤ) := by
  by_cases he : l.isEmpty
  · rw [if_pos he]
    rw [List.isEmpty_iff] at he
    subst he
    exact ⟨[], rfl, List.Sublist.refl _, by simpa using ht⟩
  · rw [if_neg he]
    exact pySample_ok sampler Hs l target ht

lemma one_le_new_target (n : ℤ) : 1 ≤ new_target n := le_max_left _ _

lemma one_le_weak_target (n : ℤ) : 1 ≤ weak_target n := le_max_left _ _

lemma targets_le (n : ℤ) (hn : 2 ≤ n) : new_target n + weak_target n ≤ n := by
  have hcase : n = 2 ∨ n = 3 ∨ 4 ≤ n := by omega
  rcases hcase with rfl | rfl | h4
  · norm_num [new_target, weak_target, pyInt]
  · norm_num [new_target, weak_target, pyInt]
  · have hn0 : (0:ℚ) ≤ (n:ℚ) := by exact_mod_cast (by omega : (0:ℤ) ≤ n)
    have hn4 : (4:ℚ) ≤ (n:ℚ) := by exact_mod_cast h4
    have h3 : (0:ℚ) ≤ (n:ℚ) * (3/10) := by positivity
    have h4' : (0:ℚ) ≤ (n:ℚ) * (4/10) := by positivity
    have e3 : new_target n = ⌊(n:ℚ) * (3/10)⌋ := by
      unfold new_target pyInt
      rw [if_neg (not_lt.2 h3)]
      exact max_eq_right (Int.le_floor.2 (by push_cast; linarith))
    have e4 : weak_target n = ⌊(n:ℚ) * (4/10)⌋ := by
      unfold weak_target pyInt
      rw [if_neg (not_lt.2 h4')]
      exact max_eq_right (Int.le_floor.2 (by push_cast; linarith))
    rw [e3, e4]
    have f3 : (⌊(n:ℚ) * (3/10)⌋ : ℚ) ≤ (n:ℚ) * (3/10) := Int.floor_le _
    have f4 : (⌊(n:ℚ) * (4/10)⌋ : ℚ) ≤ (n:ℚ) * (4/10) := Int.floor_le _
    have : ((⌊(n:ℚ) * (3/10)⌋ + ⌊(n:ℚ) * (4/10)⌋ : ℤ) : ℚ) ≤ (n:ℚ) := by
      push_cast
      linarith
    exact_mod_cast this

lemma review_target_nonneg (n : ℤ) (hn : 2 ≤ n) : 0 ≤ review_target n := by
  have := targets_le n hn
  unfold review_target
  omega

lemma filter_not_mem_length (all sel : List Word) (hall : all.Nodup)
    (hsel : sel.Nodup) (hsub : sel ⊆ all) :
    (all.filter (fun w => decide (w ∉ sel))).length
        = all.length - sel.length ∧
      sel.length ≤ all.length := by
  have hperm : List.Perm (all.filter (fun w => decide (w ∈ sel))) sel := by
    rw [List.perm_ext_iff_of_nodup (hall.filter _) hsel]
    intro a
    simp only [List.mem_filter, decide_eq_true_eq]
    exact ⟨fun h => h.2, fun h => ⟨hsub h, h⟩⟩
  have hlen : (all.filter (fun w => decide (w ∈ sel))).length = sel.length :=
    hperm.length_eq
  have hsplit := List.length_eq_length_filter_add
    (l := all) (fun w => decide (w ∈ sel))
  have hcongr : all.filter (fun w => !(decide (w ∈ sel)))
      = all.filter (fun w => decide (w ∉ sel)) := by
    apply List.filter_congr
    intro w _
    simp [decide_not]
  rw [hcongr] at hsplit
  omega

lemma nodup_map_italian_of_subset (l all : List Word) (hl : l.Nodup)
    (hsub : l ⊆ all) (hall : (all.map (·.italian)).Nodup) :
    (l.map (·.italian)).Nodup :=
  hl.map_on (fun x hx y hy hxy =>
    List.inj_on_of_nodup_map hall (hsub hx) (hsub hy) hxy)

lemma new_words_subset (stats : List WordStat) (all_words : List Word) :
    new_words stats all_words ⊆ all_words := List.filter_subset' _

lemma known_word_objs_subset (stats : List WordStat) (all_words : List Word) :
    known_word_objs stats all_words ⊆ all_words := List.filter_subset' _

lemma weak_words_subset (stats : List WordStat) (all_words : List Word)
    (n : ℤ) (now : ℚ) :
    weak_words stats all_words n now ⊆ all_words :=
  fun w hw => known_word_objs_subset stats all_words (List.filter_subset' _ hw)

lemma review_words_subset (stats : List WordStat) (all_words : List Word)
    (n : ℤ) (now : ℚ) :
    review_words stats all_words n now ⊆ all_words :=
  fun w hw => known_word_objs_subset stats all_words (List.filter_subset' _ hw)

lemma new_words_disjoint_known (stats : List WordStat)
    (all_words : List Word) :
    ∀ w ∈ new_words stats all_words, w ∉ known_word_objs stats all_words := by
  intro w hw hk
  obtain ⟨_, hnc⟩ := List.mem_filter.1 hw
  obtain ⟨_, hc⟩ := List.mem_filter.1 hk
  rw [hc] at hnc
  cases hnc

lemma weak_words_disjoint_review (stats : List WordStat)
    (all_words : List Word) (n : ℤ) (now : ℚ)
    (hstats : (stats.map (·.word)).Nodup) :
    ∀ w ∈ weak_words stats all_words n now,
      w ∉ review_words stats all_words n now := by
  intro w hw hr
  obtain ⟨_, hcw⟩ := List.mem_filter.1 hw
  obtain ⟨_, hcr⟩ := List.mem_filter.1 hr
  have hmw : w.italian ∈ weak_word_names stats n now := by simpa using hcw
  have hmr : w.italian ∈ review_word_names stats n now := by simpa using hcr
  obtain ⟨r1, hr1, hf1, he1⟩ := mem_weak_word_names stats n now _ hmw
  obtain ⟨r2, hr2, hf2, he2⟩ := mem_review_word_names stats n now _ hmr
  have : r1 = r2 :=
    List.inj_on_of_nodup_map hstats hr1 hr2 (he1.trans he2.symm)
  subst this
  exact weak_review_mutex now (now - 1) r1 hf1 hf2

lemma shuffled_result (shuffler : List Word → List Word)
    (Hp : ∀ l : List Word, List.Perm (shuffler l) l) (sel : List Word)
    (all_words : List Word) (hnodup : sel.Nodup) (hsub : sel ⊆ all_words)
    (hall : (all_words.map (·.italian)).Nodup) (m : ℤ)
    (hlen : (sel.length : ℤ) = m) :
    ((shuffler sel).map (·.italian)).Nodup ∧ ((shuffler sel).length : ℤ) = m :=
  ⟨((Hp sel).map _).nodup_iff.2
      (nodup_map_italian_of_subset sel all_words hnodup hsub hall),
    by rw [(Hp sel).length_eq]; exact hlen⟩

/-- C3 amended: for every requested size `n ≥ 2` (and any valid
behaviour of `random.sample` / `random.shuffle`), the session returned by
`get_words_for_quiz` has no duplicate item identifiers and has length
exactly `min n |vocabulary|`.  (For `n ≤ 1` the bound fails, see the
counterexample.) -/
theorem c3_selection_contract
    (sampler : List Word → Nat → List Word)
    (shuffler : List Word → List Word)
    (stats : List WordStat) (all_words : List Word) (n : ℤ) (now : ℚ)
    (Hs : ∀ (l : List Word) (k : Nat), k ≤ l.length →
      (sampler l k).length = k ∧ (sampler l k).Sublist l)
    (Hp : ∀ l : List Word, List.Perm (shuffler l) l)
    (hstats : (stats.map (·.word)).Nodup)
    (hall : (all_words.map (·.italian)).Nodup)
    (hn : 2 ≤ n) :
    ∃ sel, get_words_for_quiz sampler shuffler stats all_words n now
        = Except.ok sel ∧
      (sel.map (·.italian)).Nodup ∧
      (sel.length : ℤ) = min n (all_words.length : ℤ) := by
  have hallN : all_words.Nodup := List.Nodup.of_map _ hall
  obtain ⟨sN, hsN, subN, lenN⟩ :=
    draw_ok sampler Hs (new_words stats all_words) (new_target n)
      (le_trans zero_le_one (one_le_new_target n))
  obtain ⟨sW, hsW, subW, lenW⟩ :=
    draw_ok sampler Hs (weak_words stats all_words n now) (weak_target n)
      (le_trans zero_le_one (one_le_weak_target n))
  obtain ⟨sR, hsR, subR, lenR⟩ :=
    draw_ok sampler Hs (review_words stats all_words n now) (review_target n)
      (review_target_nonneg n hn)
  -- facts about the concatenated pre-fill selection
  have hsubN : sN ⊆ new_words stats all_words := subN.subset
  have hsubW : sW ⊆ weak_words stats all_words n now := subW.subset
  have hsubR : sR ⊆ review_words stats all_words n now := subR.subset
  have hselSub : sN ++ sW ++ sR ⊆ all_words := by
    intro w hw
    rcases List.mem_append.1 hw with hw | hw
    · rcases List.mem_append.1 hw with hw | hw
      · exact new_words_subset stats all_words (hsubN hw)
      · exact weak_words_subset stats all_words n now (hsubW hw)
    · exact review_words_subset stats all_words n now (hsubR hw)
  have hselNodup : (sN ++ sW ++ sR).Nodup := by
    have hnN : sN.Nodup := (hallN.filter _).sublist subN
    have hnW : sW.Nodup := ((hallN.filter _).filter _).sublist subW
    have hnR : sR.Nodup := ((hallN.filter _).filter _).sublist subR
    refine (hnN.append hnW ?_).append hnR ?_
    · intro w hwN hwW
      exact new_words_disjoint_known stats all_words w (hsubN hwN)
        (List.filter_subset' _ (hsubW hwW))
    · intro w hw hwR
      rcases List.mem_append.1 hw with hwN | hwW
      · exact new_words_disjoint_known stats all_words w (hsubN hwN)
          (List.filter_subset' _ (hsubR hwR))
      · exact weak_words_disjoint_review stats all_words n now hstats w
          (hsubW hwW) (hsubR hwR)
  have hselLen : ((sN ++ sW ++ sR).length : ℤ) ≤ n := by
    have h1 : (sN.length : ℤ) ≤ new_target n := by omega
    have h2 : (sW.length : ℤ) ≤ weak_target n := by omega
    have h3 : (sR.length : ℤ) ≤ review_target n := by omega
    have := targets_le n hn
    unfold review_target at h3
    simp only [List.length_append]
    push_cast
    omega
  have hselLenLe : (sN ++ sW ++ sR).length ≤ all_words.length :=
    (List.subperm_of_subset hselNodup hselSub).length_le
  unfold get_words_for_quiz
  rw [hsN, hsW, hsR]
  dsimp only
  by_cases hfill : (((sN ++ sW ++ sR).length : ℤ) < n)
  · rw [if_pos hfill]
    by_cases hrem :
        (all_words.filter (fun w => decide (w ∉ sN ++ sW ++ sR))).isEmpty
    · rw [if_pos hrem]
      refine ⟨shuffler (sN ++ sW ++ sR), rfl, ?_⟩
      obtain ⟨hflen, hle⟩ := filter_not_mem_length all_words (sN ++ sW ++ sR)
        hallN hselNodup hselSub
      rw [List.isEmpty_iff_length_eq_zero] at hrem
      have hEq : (sN ++ sW ++ sR).length = all_words.length := by omega
      refine shuffled_result shuffler Hp _ all_words hselNodup hselSub hall _ ?_
      rw [hEq]
      omega
    · rw [if_neg hrem]
      obtain ⟨ext, hext, subext, lenext⟩ := pySample_ok sampler Hs
        (all_words.filter (fun w => decide (w ∉ sN ++ sW ++ sR)))
        (n - ((sN ++ sW ++ sR).length : ℤ)) (by omega)
      rw [hext]
      refine ⟨shuffler (sN ++ sW ++ sR ++ ext), rfl, ?_⟩
      have hextMem : ∀ w ∈ ext, w ∈ all_words ∧ w ∉ sN ++ sW ++ sR := by
        intro w hw
        have := subext.subset hw
        obtain ⟨h1, h2⟩ := List.mem_filter.1 this
        exact ⟨h1, by simpa using h2⟩
      have hsub' : sN ++ sW ++ sR ++ ext ⊆ all_words := by
        intro w hw
        rcases List.mem_append.1 hw with hw | hw
        · exact hselSub hw
        · exact (hextMem w hw).1
      have hnodup' : (sN ++ sW ++ sR ++ ext).Nodup := by
        refine hselNodup.append ((hallN.filter _).sublist subext) ?_
        intro w hw hwe
        exact (hextMem w hwe).2 hw
      obtain ⟨hflen, hle⟩ := filter_not_mem_length all_words (sN ++ sW ++ sR)
        hallN hselNodup hselSub
      refine shuffled_result shuffler Hp _ all_words hnodup' hsub' hall _ ?_
      simp only [List.length_append] at hflen hle hfill lenext ⊢
      push_cast at hfill lenext ⊢
      omega
  · rw [if_neg hfill]
    refine ⟨shuffler (sN ++ sW ++ sR), rfl, ?_⟩
    refine shuffled_result shuffler Hp _ all_words hselNodup hselSub hall _ ?_
    push_cast at hfill hselLen ⊢
    omega

lemma takeSampler_spec : ∀ (l : List Word) (k : Nat), k ≤ l.length →
    (takeSampler l k).length = k ∧ (takeSampler l k).Sublist l := by
  intro l k hk
  constructor
  · simp only [takeSampler, List.length_take]
    omega
  · exact List.take_sublist _ _

/-- Witness for C3 amended: a two-word cold-start session of size 2. -/
theorem c3_selection_contract_witness :
    ∃ sel, get_words_for_quiz takeSampler id [] [casaW, caneW] 2 0
        = Except.ok sel ∧
      (sel.map (·.italian)).Nodup ∧
      (sel.length : ℤ) = min 2 (([casaW, caneW] : List Word).length : ℤ) :=
  c3_selection_contract takeSampler id [] [casaW, caneW] 2 0
    takeSampler_spec (fun l => List.Perm.refl l) (by simp)
    (by simp [casaW, caneW]) (by norm_num)

end ItalianTrainer
